import Mathlib

/-!
Verification development for the perfetto tracing-service core
(`src/tracing/core/service_impl.h`).

The repository ships only the service header: the inline members of
`TraceBuffer` (`num_pages`, `get_page`'s precondition, `get_next_page`) and the
shapes of the service data structures (`tracing_sessions_` keyed by consumer,
`data_sources_` as a name multimap, `data_source_instances` as a
producer-keyed multimap) are embedded from that source. The method bodies
living in `service_impl.cc`, `id_allocator.h/cc` and `shared_memory_abi.h/cc`
are not in the repository; those operations are modelled from the spec, each
marked `Modelled from the spec:` in its doc comment.

Machine integers: C++ `size_t` arithmetic is embedded as `Nat` with explicit
reduction modulo `2 ^ 64` wherever the source arithmetic can wrap.
-/

namespace Perfetto

/-- Modulus of the C++ `size_t` type: `2 ^ 64`. -/
def sizeTMod : Nat := 18446744073709551616

/-- The `size_t` expression `n - 1`: ordinary subtraction for `n ≥ 1`,
wrapping to `2 ^ 64 - 1` at `n = 0`. -/
def sizeTSub1 (n : Nat) : Nat := (n + (sizeTMod - 1)) % sizeTMod

/-- `TraceBuffer::kBufferPageSize` (4096 bytes). -/
def kBufferPageSize : Nat := 4096

/-- Central trace buffer (`ServiceImpl::TraceBuffer`): total byte `size`, the
ring-buffer write cursor `cur_page`, and the backing pages. A page's payload
is abstracted to a `Nat` label; an unwritten page is `none`. -/
structure TraceBuffer where
  size : Nat
  cur_page : Nat
  slots : List (Option Nat)
deriving DecidableEq

/-- `TraceBuffer::num_pages`: `size / kBufferPageSize`. -/
def TraceBuffer.num_pages (b : TraceBuffer) : Nat := b.size / kBufferPageSize

/-- Precondition of `TraceBuffer::get_page` (its `PERFETTO_DCHECK`):
`page < num_pages()`. -/
def TraceBuffer.get_page_pre (b : TraceBuffer) (page : Nat) : Prop :=
  page < b.num_pages

/-- Cursor update performed by `TraceBuffer::get_next_page`:
`cur_page = cur_page == num_pages() - 1 ? 0 : cur_page + 1`, in `size_t`
arithmetic. -/
def TraceBuffer.advance (b : TraceBuffer) : TraceBuffer :=
  { b with cur_page := if b.cur_page = sizeTSub1 b.num_pages then 0
                       else (b.cur_page + 1) % sizeTMod }

/-- `TraceBuffer::get_next_page`: returns the index of the current page and
advances the write cursor. -/
def TraceBuffer.get_next_page (b : TraceBuffer) : Nat × TraceBuffer :=
  (b.cur_page, b.advance)

/-- Iterated cursor advance: the state after `n` calls of `get_next_page`. -/
def TraceBuffer.advanceN : TraceBuffer → Nat → TraceBuffer
  | b, 0 => b
  | b, n + 1 => TraceBuffer.advanceN b.advance n

inductive TraceBufferError
  | InvalidSizeError
deriving DecidableEq

/-- Modelled from the spec: the body of the `TraceBuffer(size)` constructor is
not in the repository (only its declaration is). Per §4.3, construction
requires the total size to be an exact multiple of the page size and fails
with `InvalidSizeError` otherwise; the fresh buffer starts with `cur_page = 0`
and all pages unwritten. -/
def TraceBuffer.create (sz : Nat) : Except TraceBufferError TraceBuffer :=
  if sz % kBufferPageSize = 0 then
    .ok { size := sz, cur_page := 0,
          slots := List.replicate (sz / kBufferPageSize) none }
  else .error .InvalidSizeError

/-- Modelled from the spec: `WritePage` (§4.3) copies one page of bytes into
the ring slot at the current cursor and advances the cursor via the source's
`get_next_page`, silently overwriting the slot's previous occupant. -/
def TraceBuffer.writePage (b : TraceBuffer) (x : Nat) : TraceBuffer :=
  { b with slots := b.slots.set b.cur_page (some x),
           cur_page := b.advance.cur_page }

/-- Writes a sequence of pages in order. -/
def TraceBuffer.writeAll (b : TraceBuffer) (xs : List Nat) : TraceBuffer :=
  xs.foldl TraceBuffer.writePage b

/-- Modelled from the spec: `ReadAll` (§4.3) produces the pages from the
oldest still-valid one through the newest, in write order, without mutating
the buffer. The oldest slot is the one at the write cursor (the next to be
overwritten); unwritten slots are skipped. -/
def TraceBuffer.readAll (b : TraceBuffer) : List Nat :=
  ((b.slots.drop b.cur_page) ++ (b.slots.take b.cur_page)).filterMap id

/-- On values below the modulus, the `size_t` expression `n - 1` agrees with
ordinary subtraction once `n ≥ 1`. -/
theorem sizeTSub1_eq_sub (n : Nat) (h1 : 1 ≤ n) (h2 : n < sizeTMod) :
    sizeTSub1 n = n - 1 := by
  unfold sizeTSub1 sizeTMod at *
  omega

/-- `get_next_page` keeps the cursor inside `[0, num_pages)` whenever the
buffer has at least one page and the cursor was valid before the call. -/
theorem advance_cur_lt (b : TraceBuffer) (h1 : 1 ≤ b.num_pages)
    (hM : b.num_pages < sizeTMod) (h0 : b.cur_page < b.num_pages) :
    b.advance.cur_page < b.num_pages := by
  show (if b.cur_page = sizeTSub1 b.num_pages then 0
        else (b.cur_page + 1) % sizeTMod) < b.num_pages
  rw [sizeTSub1_eq_sub b.num_pages h1 hM]
  by_cases hc : b.cur_page = b.num_pages - 1
  · rw [if_pos hc]
    omega
  · rw [if_neg hc, Nat.mod_eq_of_lt (by omega)]
    omega

/-- Value of the cursor after `get_next_page`, for a valid starting cursor:
wraps to `0` from the last page, otherwise advances by one. -/
theorem advance_cur_eq (b : TraceBuffer) (h1 : 1 ≤ b.num_pages)
    (hM : b.num_pages < sizeTMod) (h0 : b.cur_page < b.num_pages) :
    b.advance.cur_page =
      (if b.cur_page = b.num_pages - 1 then 0 else b.cur_page + 1) := by
  show (if b.cur_page = sizeTSub1 b.num_pages then 0
        else (b.cur_page + 1) % sizeTMod) =
      (if b.cur_page = b.num_pages - 1 then 0 else b.cur_page + 1)
  rw [sizeTSub1_eq_sub b.num_pages h1 hM]
  by_cases hc : b.cur_page = b.num_pages - 1
  · rw [if_pos hc, if_pos hc]
  · rw [if_neg hc, if_neg hc, Nat.mod_eq_of_lt (by omega)]

theorem advanceN_size (b : TraceBuffer) : ∀ n, (b.advanceN n).size = b.size := by
  intro n
  induction n generalizing b with
  | zero => rfl
  | succ n ih => exact ih b.advance

theorem advanceN_num_pages (b : TraceBuffer) (n : Nat) :
    (b.advanceN n).num_pages = b.num_pages := by
  unfold TraceBuffer.num_pages
  rw [advanceN_size]

theorem advanceN_succ_right (b : TraceBuffer) :
    ∀ n, b.advanceN (n + 1) = (b.advanceN n).advance := by
  intro n
  induction n generalizing b with
  | zero => rfl
  | succ n ih => exact ih b.advance

theorem advanceN_cur_lt (b : TraceBuffer) (h1 : 1 ≤ b.num_pages)
    (hM : b.num_pages < sizeTMod) (h0 : b.cur_page < b.num_pages) :
    ∀ n, (b.advanceN n).cur_page < b.num_pages := by
  intro n
  induction n generalizing b with
  | zero => exact h0
  | succ n ih => exact ih b.advance h1 hM (advance_cur_lt b h1 hM h0)

/-- A freshly constructed buffer has its write cursor at page 0. -/
theorem create_cur_page_zero (sz : Nat) (b : TraceBuffer)
    (hc : TraceBuffer.create sz = .ok b) : b.cur_page = 0 := by
  unfold TraceBuffer.create at hc
  split at hc
  · cases hc
    rfl
  · cases hc

/-- C8: constructing a central TraceBuffer with a total byte size that is not
an exact multiple of the fixed 4096-byte page size fails with
`InvalidSizeError`; construction succeeds for every exact multiple. -/
theorem traceBuffer_create_size_check (sz : Nat) :
    (sz % kBufferPageSize = 0 →
      TraceBuffer.create sz =
        .ok { size := sz, cur_page := 0,
              slots := List.replicate (sz / kBufferPageSize) none }) ∧
    (sz % kBufferPageSize ≠ 0 →
      TraceBuffer.create sz = .error .InvalidSizeError) := by
  constructor
  · intro h
    unfold TraceBuffer.create
    rw [if_pos h]
  · intro h
    unfold TraceBuffer.create
    rw [if_neg h]

theorem traceBuffer_create_size_check_witness :
    (8192 % kBufferPageSize = 0 ∧
      TraceBuffer.create 8192 =
        .ok { size := 8192, cur_page := 0,
              slots := List.replicate (8192 / kBufferPageSize) none }) ∧
    (4097 % kBufferPageSize ≠ 0 ∧
      TraceBuffer.create 4097 = .error .InvalidSizeError) :=
  ⟨⟨by decide, (traceBuffer_create_size_check 8192).1 (by decide)⟩,
   ⟨by decide, (traceBuffer_create_size_check 4097).2 (by decide)⟩⟩

/-- Zero-sized trace buffer: a legal construction (0 bytes is an exact
multiple of the page size) with `num_pages() = 0`. -/
def tbZero : TraceBuffer := { size := 0, cur_page := 0, slots := [] }

/-- C9 counterexample: the claim quantifies over every central TraceBuffer,
but for the constructible zero-sized buffer the initial cursor value 0 already
fails the valid-page condition `cur_page < num_pages()`. -/
theorem traceBuffer_cursor_invalid_at_zero :
    TraceBuffer.create 0 = .ok tbZero ∧
    ¬ tbZero.cur_page < tbZero.num_pages := by
  constructor
  · rfl
  · decide

/-- C9 (amended): for every central TraceBuffer constructed with at least one
page, the write cursor lies in `[0, num_pages)` initially and after every
`get_next_page` call, and each call advances the cursor by one, wrapping to 0
from `num_pages() - 1`. -/
theorem traceBuffer_cursor_valid (sz : Nat) (b : TraceBuffer)
    (hc : TraceBuffer.create sz = .ok b) (h1 : 1 ≤ b.num_pages)
    (hM : b.num_pages < sizeTMod) (n : Nat) :
    (b.advanceN n).cur_page < b.num_pages ∧
    (b.advanceN (n + 1)).cur_page =
      (if (b.advanceN n).cur_page = b.num_pages - 1 then 0
       else (b.advanceN n).cur_page + 1) := by
  have h0 : b.cur_page < b.num_pages := by
    rw [create_cur_page_zero sz b hc]
    omega
  have hlt := advanceN_cur_lt b h1 hM h0 n
  refine ⟨hlt, ?_⟩
  rw [advanceN_succ_right]
  have hnp := advanceN_num_pages b n
  have := advance_cur_eq (b.advanceN n) (by rw [hnp]; exact h1)
    (by rw [hnp]; exact hM) (by rw [hnp]; exact hlt)
  rw [hnp] at this
  exact this

/-- One-page trace buffer used to instantiate the amended C9 theorem. -/
def tbOne : TraceBuffer := { size := 4096, cur_page := 0, slots := [none] }

theorem traceBuffer_cursor_valid_witness :
    TraceBuffer.create 4096 = .ok tbOne ∧ 1 ≤ tbOne.num_pages ∧
    tbOne.num_pages < sizeTMod ∧
    ((tbOne.advanceN 5).cur_page < tbOne.num_pages ∧
      (tbOne.advanceN 6).cur_page =
        (if (tbOne.advanceN 5).cur_page = tbOne.num_pages - 1 then 0
         else (tbOne.advanceN 5).cur_page + 1)) :=
  ⟨rfl, by decide, by decide,
   traceBuffer_cursor_valid 4096 tbOne rfl (by decide) (by decide) 5⟩

/-- Undersized buffer (total size below one page) used to instantiate C10. -/
def tbSmall : TraceBuffer := { size := 100, cur_page := 0, slots := [] }

/-- C10: when a TraceBuffer's total size is below `kBufferPageSize`,
`num_pages()` is 0, the initial cursor 0 already fails the valid-page
condition, `get_page`'s precondition is unsatisfiable, `get_next_page`
computes `num_pages() - 1` on an unsigned zero (wrapping to `2^64 - 1`), and
the cursor-validity invariant holds only under `num_pages() ≥ 1`. -/
theorem traceBuffer_zero_pages_unsafe (b : TraceBuffer)
    (h : b.size < kBufferPageSize) :
    b.num_pages = 0 ∧
    ¬ (0 : Nat) < b.num_pages ∧
    (∀ p, ¬ b.get_page_pre p) ∧
    sizeTSub1 b.num_pages = sizeTMod - 1 ∧
    (∀ b2 : TraceBuffer, 1 ≤ b2.num_pages → b2.num_pages < sizeTMod →
      b2.cur_page < b2.num_pages → b2.advance.cur_page < b2.num_pages) := by
  have hz : b.num_pages = 0 := Nat.div_eq_of_lt h
  refine ⟨hz, ?_, ?_, ?_, ?_⟩
  · rw [hz]
    omega
  · intro p
    unfold TraceBuffer.get_page_pre
    rw [hz]
    omega
  · rw [hz]
    unfold sizeTSub1 sizeTMod
    omega
  · intro b2 h1 hM h0
    exact advance_cur_lt b2 h1 hM h0

theorem traceBuffer_zero_pages_unsafe_witness :
    tbSmall.size < kBufferPageSize ∧
    (tbSmall.num_pages = 0 ∧
      ¬ (0 : Nat) < tbSmall.num_pages ∧
      (∀ p, ¬ tbSmall.get_page_pre p) ∧
      sizeTSub1 tbSmall.num_pages = sizeTMod - 1 ∧
      (∀ b2 : TraceBuffer, 1 ≤ b2.num_pages → b2.num_pages < sizeTMod →
        b2.cur_page < b2.num_pages → b2.advance.cur_page < b2.num_pages)) :=
  ⟨by decide, traceBuffer_zero_pages_unsafe tbSmall (by decide)⟩

/-- State of a fresh `N`-page buffer after writing `k ≤ N` pages: the first
`k` slots hold the writes in order, the rest are untouched, and the cursor
sits at `k mod N`. -/
theorem writeAll_fill (N : Nat) (h1 : 1 ≤ N) (hM : N < sizeTMod) :
    ∀ (xs : List Nat), xs.length ≤ N →
      TraceBuffer.writeAll
          { size := N * kBufferPageSize, cur_page := 0,
            slots := List.replicate N none } xs
        = { size := N * kBufferPageSize, cur_page := xs.length % N,
            slots := xs.map some ++ List.replicate (N - xs.length) none } := by
  intro xs
  induction xs using List.reverseRecOn with
  | nil =>
    intro _
    simp [TraceBuffer.writeAll]
  | append_singleton l x ih =>
    intro hlen
    have hk : l.length + 1 ≤ N := by simpa using hlen
    have hkN : l.length % N = l.length := Nat.mod_eq_of_lt (by omega)
    have hstep : TraceBuffer.writeAll
        { size := N * kBufferPageSize, cur_page := 0,
          slots := List.replicate N none } (l ++ [x])
        = TraceBuffer.writePage (TraceBuffer.writeAll
            { size := N * kBufferPageSize, cur_page := 0,
              slots := List.replicate N none } l) x := by
      unfold TraceBuffer.writeAll
      rw [List.foldl_append]
      rfl
    rw [hstep, ih (by omega)]
    have hnp : TraceBuffer.num_pages
        { size := N * kBufferPageSize, cur_page := l.length % N,
          slots := l.map some ++ List.replicate (N - l.length) none } = N := by
      unfold TraceBuffer.num_pages kBufferPageSize
      exact Nat.mul_div_cancel N (by omega)
    have hslots : (l.map some ++ List.replicate (N - l.length) none).set
        (l.length % N) (some x)
        = (l ++ [x]).map some ++ List.replicate (N - (l.length + 1)) none := by
      rw [hkN]
      rw [List.set_append_right _ _ (by simp)]
      have hrep : N - l.length = (N - (l.length + 1)) + 1 := by omega
      simp only [List.length_map, Nat.sub_self, hrep, List.replicate_succ,
        List.set_cons_zero, List.map_append, List.map_cons, List.map_nil,
        List.append_assoc, List.cons_append, List.nil_append]
    have hcur : (TraceBuffer.advance
        { size := N * kBufferPageSize, cur_page := l.length % N,
          slots := l.map some ++ List.replicate (N - l.length) none }).cur_page
        = (l.length + 1) % N := by
      show (if l.length % N = sizeTSub1 (TraceBuffer.num_pages
              { size := N * kBufferPageSize, cur_page := l.length % N,
                slots := l.map some ++ List.replicate (N - l.length) none })
            then 0 else (l.length % N + 1) % sizeTMod) = (l.length + 1) % N
      rw [hnp, sizeTSub1_eq_sub N h1 hM, hkN]
      by_cases hc : l.length = N - 1
      · rw [if_pos hc]
        have hN : l.length + 1 = N := by omega
        rw [hN, Nat.mod_self]
      · rw [if_neg hc, Nat.mod_eq_of_lt (show l.length + 1 < sizeTMod by omega),
          Nat.mod_eq_of_lt (show l.length + 1 < N by omega)]
    show TraceBuffer.writePage _ x = _
    unfold TraceBuffer.writePage
    rw [hcur]
    simp only [hslots, List.length_append, List.length_cons, List.length_nil]

/-- C2: for every central TraceBuffer sized for `N ≥ 1` pages, writing `N + 1`
pages in order and then reading the buffer back returns exactly the `N` most
recently written pages in write order, with the oldest page evicted. -/
theorem traceBuffer_ring_eviction (N : Nat) (h1 : 1 ≤ N) (hM : N < sizeTMod)
    (b : TraceBuffer) (hb : TraceBuffer.create (N * kBufferPageSize) = .ok b)
    (xs : List Nat) (hx : xs.length = N + 1) :
    (b.writeAll xs).readAll = xs.drop 1 := by
  have hmod : (N * kBufferPageSize) % kBufferPageSize = 0 := by
    unfold kBufferPageSize
    omega
  have hdiv : N * kBufferPageSize / kBufferPageSize = N := by
    unfold kBufferPageSize
    omega
  unfold TraceBuffer.create at hb
  rw [if_pos hmod] at hb
  cases hb
  rw [hdiv]
  have hne : xs ≠ [] := List.ne_nil_of_length_pos (by omega)
  obtain ⟨ys, x, rfl⟩ : ∃ ys x, xs = ys ++ [x] :=
    ⟨xs.dropLast, xs.getLast hne, (List.dropLast_concat_getLast hne).symm⟩
  have hys : ys.length = N := by
    rw [List.length_append, List.length_cons, List.length_nil] at hx
    omega
  have hwa : TraceBuffer.writeAll
      { size := N * kBufferPageSize, cur_page := 0,
        slots := List.replicate N none } (ys ++ [x])
      = TraceBuffer.writePage (TraceBuffer.writeAll
          { size := N * kBufferPageSize, cur_page := 0,
            slots := List.replicate N none } ys) x := by
    unfold TraceBuffer.writeAll
    rw [List.foldl_append]
    rfl
  rw [hwa, writeAll_fill N h1 hM ys (by omega), hys, Nat.mod_self, Nat.sub_self]
  simp only [List.replicate_zero, List.append_nil]
  obtain ⟨y, t, rfl⟩ : ∃ y t, ys = y :: t := by
    cases ys with
    | nil =>
      exfalso
      rw [List.length_nil] at hys
      omega
    | cons a s => exact ⟨a, s, rfl⟩
  have ht : t.length = N - 1 := by
    rw [List.length_cons] at hys
    omega
  have hnp : TraceBuffer.num_pages
      { size := N * kBufferPageSize, cur_page := 0,
        slots := (y :: t).map some } = N := by
    unfold TraceBuffer.num_pages
    exact hdiv
  unfold TraceBuffer.writePage
  have hslots : ((y :: t).map some).set 0 (some x) = some x :: t.map some := by
    rw [List.map_cons, List.set_cons_zero]
  have hadv := advance_cur_eq
    { size := N * kBufferPageSize, cur_page := 0, slots := (y :: t).map some }
    (by rw [hnp]; exact h1) (by rw [hnp]; exact hM)
    (by rw [hnp]; exact h1)
  rw [hnp] at hadv
  have hproj : TraceBuffer.cur_page
      { size := N * kBufferPageSize, cur_page := 0,
        slots := (y :: t).map some } = 0 := rfl
  rw [hproj] at hadv
  have hadv2 : (TraceBuffer.advance
      { size := N * kBufferPageSize, cur_page := 0,
        slots := (y :: t).map some }).cur_page
      = (if N = 1 then 0 else 1) := by
    rw [hadv]
    by_cases hN : N = 1
    · rw [if_pos (show (0 : Nat) = N - 1 by omega), if_pos hN]
    · rw [if_neg (show ¬ (0 : Nat) = N - 1 by omega), if_neg hN]
  rw [hadv2, hslots]
  by_cases hN : N = 1
  · rw [if_pos hN]
    have ht0 : t = [] := List.length_eq_zero.mp (by omega)
    subst ht0
    unfold TraceBuffer.readAll
    simp
  · rw [if_neg hN]
    unfold TraceBuffer.readAll
    show ((some x :: t.map some).drop 1 ++ (some x :: t.map some).take 1).filterMap id
        = ((y :: t) ++ [x]).drop 1
    simp [List.filterMap_map]

/-- Three-page trace buffer used to instantiate the ring-eviction theorem. -/
def tbRing : TraceBuffer :=
  { size := 3 * kBufferPageSize, cur_page := 0, slots := List.replicate 3 none }

theorem traceBuffer_ring_eviction_witness :
    TraceBuffer.create (3 * kBufferPageSize) = .ok tbRing ∧
    (tbRing.writeAll [1, 2, 3, 4]).readAll = [2, 3, 4] :=
  ⟨rfl, traceBuffer_ring_eviction 3 (by decide) (by decide) tbRing rfl
    [1, 2, 3, 4] rfl⟩

inductive IdAllocError
  | ExhaustedError
deriving DecidableEq

/-- Modelled from the spec: `id_allocator.h` is included by the service header
but is not in the repository. Per §2 and §4.1, the IdAllocator issues small
integer identifiers from a bounded range (here `1 .. capacity`), recycles
freed ones, and never hands out a still-outstanding ID. -/
structure IdAllocator where
  capacity : Nat
  outstanding : Finset Nat
deriving DecidableEq

/-- Linear scan for the smallest identifier not in `outstanding`, starting at
`start` and trying `fuel` consecutive candidates. -/
def findFree (outstanding : Finset Nat) : Nat → Nat → Option Nat
  | 0, _ => none
  | fuel + 1, start =>
    if start ∈ outstanding then findFree outstanding fuel (start + 1)
    else some start

/-- Modelled from the spec: `Allocate() -> ID` returns the smallest
currently-unused ID in the bounded range and fails with `ExhaustedError` when
the range is saturated (§4.1). -/
def IdAllocator.allocate (a : IdAllocator) :
    Except IdAllocError (Nat × IdAllocator) :=
  match findFree a.outstanding a.capacity 1 with
  | some i => .ok (i, { a with outstanding := insert i a.outstanding })
  | none => .error .ExhaustedError

/-- Modelled from the spec: `Free(ID)` returns an ID to the pool; freeing an
ID that was not outstanding is a no-op (§4.1). -/
def IdAllocator.freeId (a : IdAllocator) (i : Nat) : IdAllocator :=
  { a with outstanding := a.outstanding.erase i }

/-- One call in a sequence of Allocate/Free calls. -/
inductive IdEvent
  | alloc
  | free (i : Nat)

/-- Applies one call: a failed Allocate leaves the allocator unchanged. -/
def idStep (a : IdAllocator) : IdEvent → IdAllocator
  | .alloc =>
    match a.allocate with
    | .ok (_, a2) => a2
    | .error _ => a
  | .free i => a.freeId i

/-- Runs a sequence of Allocate/Free calls from an empty allocator of the
given capacity. -/
def runIdAlloc (cap : Nat) (evs : List IdEvent) : IdAllocator :=
  evs.foldl idStep { capacity := cap, outstanding := ∅ }

theorem findFree_some (out : Finset Nat) :
    ∀ (fuel start i : Nat), findFree out fuel start = some i →
      i ∉ out ∧ start ≤ i ∧ i < start + fuel ∧
        (∀ j, start ≤ j → j < i → j ∈ out) := by
  intro fuel
  induction fuel with
  | zero => intro start i h; cases h
  | succ fuel ih =>
    intro start i h
    unfold findFree at h
    by_cases hs : start ∈ out
    · rw [if_pos hs] at h
      obtain ⟨h1, h2, h3, h4⟩ := ih (start + 1) i h
      refine ⟨h1, by omega, by omega, ?_⟩
      intro j hj1 hj2
      by_cases hj : j = start
      · rw [hj]; exact hs
      · exact h4 j (by omega) hj2
    · rw [if_neg hs] at h
      cases h
      exact ⟨hs, Nat.le_refl _, by omega, fun j hj1 hj2 => by omega⟩

theorem findFree_none (out : Finset Nat) :
    ∀ (fuel start : Nat), findFree out fuel start = none →
      ∀ j, start ≤ j → j < start + fuel → j ∈ out := by
  intro fuel
  induction fuel with
  | zero => intro start _ j hj1 hj2; omega
  | succ fuel ih =>
    intro start h j hj1 hj2
    unfold findFree at h
    by_cases hs : start ∈ out
    · rw [if_pos hs] at h
      by_cases hj : j = start
      · rw [hj]; exact hs
      · exact ih (start + 1) h j (by omega) (by omega)
    · rw [if_neg hs] at h
      cases h

theorem findFree_mem_none (out : Finset Nat) :
    ∀ (fuel start : Nat), (∀ j, start ≤ j → j < start + fuel → j ∈ out) →
      findFree out fuel start = none := by
  intro fuel
  induction fuel with
  | zero => intro start _; rfl
  | succ fuel ih =>
    intro start hall
    unfold findFree
    rw [if_pos (hall start (Nat.le_refl _) (by omega))]
    exact ih (start + 1) (fun j hj1 hj2 => hall j (by omega) (by omega))

theorem allocate_capacity (a : IdAllocator) (i : Nat) (a2 : IdAllocator)
    (h : a.allocate = .ok (i, a2)) : a2.capacity = a.capacity := by
  unfold IdAllocator.allocate at h
  cases hf : findFree a.outstanding a.capacity 1 with
  | none => rw [hf] at h; cases h
  | some k => rw [hf] at h; cases h; rfl

theorem idStep_capacity (a : IdAllocator) (e : IdEvent) :
    (idStep a e).capacity = a.capacity := by
  cases e with
  | alloc =>
    unfold idStep
    cases h : a.allocate with
    | ok p => exact allocate_capacity a p.1 p.2 (by rw [h])
    | error _ => rfl
  | free i => rfl

theorem foldl_idStep_capacity (evs : List IdEvent) :
    ∀ a : IdAllocator, (evs.foldl idStep a).capacity = a.capacity := by
  induction evs with
  | nil => intro a; rfl
  | cons e rest ih =>
    intro a
    rw [List.foldl_cons, ih (idStep a e), idStep_capacity]

theorem runIdAlloc_capacity (cap : Nat) (evs : List IdEvent) :
    (runIdAlloc cap evs).capacity = cap :=
  foldl_idStep_capacity evs { capacity := cap, outstanding := ∅ }

/-- C3: after every sequence of Allocate/Free calls, Allocate never returns a
still-outstanding ID, returns the smallest currently-unused ID in the bounded
range `1 .. capacity` (which then becomes outstanding), and fails with
`ExhaustedError` exactly when every ID of the range is outstanding. -/
theorem idAllocator_contract (cap : Nat) (evs : List IdEvent) :
    (∀ i a2, (runIdAlloc cap evs).allocate = .ok (i, a2) →
      i ∉ (runIdAlloc cap evs).outstanding ∧ 1 ≤ i ∧ i ≤ cap ∧
      (∀ j, 1 ≤ j → j < i → j ∈ (runIdAlloc cap evs).outstanding) ∧
      a2.outstanding = insert i (runIdAlloc cap evs).outstanding) ∧
    ((runIdAlloc cap evs).allocate = .error .ExhaustedError ↔
      ∀ j, 1 ≤ j → j ≤ cap → j ∈ (runIdAlloc cap evs).outstanding) := by
  have hcap := runIdAlloc_capacity cap evs
  constructor
  · intro i a2 h
    unfold IdAllocator.allocate at h
    cases hf : findFree (runIdAlloc cap evs).outstanding
        (runIdAlloc cap evs).capacity 1 with
    | none => rw [hf] at h; cases h
    | some k =>
      rw [hf] at h
      cases h
      obtain ⟨h1, h2, h3, h4⟩ := findFree_some _ _ _ _ hf
      rw [hcap] at h3
      exact ⟨h1, h2, by omega, h4, rfl⟩
  · constructor
    · intro h j hj1 hj2
      unfold IdAllocator.allocate at h
      cases hf : findFree (runIdAlloc cap evs).outstanding
          (runIdAlloc cap evs).capacity 1 with
      | some k => rw [hf] at h; cases h
      | none =>
        have := findFree_none _ _ _ hf j hj1
        rw [hcap] at this
        exact this (by omega)
    · intro hall
      unfold IdAllocator.allocate
      rw [findFree_mem_none _ _ _ (fun j hj1 hj2 => hall j hj1 (by omega))]

theorem idAllocator_contract_witness :
    (runIdAlloc 2 [.alloc]).allocate =
      .ok (2, { capacity := 2, outstanding := insert 2 (insert 1 ∅) }) ∧
    (2 ∉ (runIdAlloc 2 [.alloc]).outstanding ∧ 1 ≤ 2 ∧ 2 ≤ 2 ∧
      (∀ j, 1 ≤ j → j < 2 → j ∈ (runIdAlloc 2 [.alloc]).outstanding) ∧
      ({ capacity := 2,
         outstanding := insert 2 (insert 1 ∅) } : IdAllocator).outstanding =
        insert 2 (runIdAlloc 2 [.alloc]).outstanding) :=
  ⟨rfl, (idAllocator_contract 2 [.alloc]).1 2
    { capacity := 2, outstanding := insert 2 (insert 1 ∅) } rfl⟩

inductive ChunkState
  | Free
  | BeingWritten
  | Complete
  | BeingRead
deriving DecidableEq

/-- Modelled from the spec: `shared_memory_abi.h` is included by the service
header but is not in the repository. Per §4.2 a chunk carries a target
BufferID, a per-producer write sequence number, a payload (abstracted to a
`Nat` label) and a four-valued state tag. -/
structure Chunk where
  state : ChunkState
  target_buffer : Nat
  seq_number : Nat
  payload : Nat
deriving DecidableEq

/-- One payload copy performed by the service into a central buffer,
identifying the source chunk position and the chunk's target BufferID. -/
structure CopyEvent where
  page : Nat
  chunk : Nat
  target : Nat
  payload : Nat
deriving DecidableEq

/-- Shared-memory arena of one producer (pages of chunks) together with the
service-side log of payload copies into central buffers. The copy log
abstracts `ServiceImpl::CopyProducerPageIntoLogBuffer`, whose body is not in
the repository: each performed copy appends one event. -/
structure ShmState where
  pages : List (List Chunk)
  copies : List CopyEvent
deriving DecidableEq

/-- Service-side state flip for every Complete chunk of a scanned page
(`Complete → BeingRead → Free` per §4.2; the net effect after the copy is
`Free`). Chunks in any other state are left untouched. -/
def markFree (pg : List Chunk) : List Chunk :=
  pg.map (fun ch => if ch.state = .Complete
                    then { ch with state := .Free } else ch)

/-- Copy events produced by scanning the chunks of page `q`, starting at
chunk index `base`: one copy per chunk found in Complete state. -/
def completeEvents (q : Nat) : Nat → List Chunk → List CopyEvent
  | _, [] => []
  | base, ch :: rest =>
    (if ch.state = .Complete
     then [{ page := q, chunk := base, target := ch.target_buffer,
             payload := ch.payload }]
     else [])
      ++ completeEvents q (base + 1) rest

/-- Modelled from the spec: the scan of one indicated page (§4.2): every
chunk observed in Complete state has its payload copied into its target
central buffer and is then flipped to Free; chunks still BeingWritten (or
Free, or BeingRead) are skipped. A page index outside the arena is a no-op. -/
def scanPage (s : ShmState) (q : Nat) : ShmState :=
  match s.pages[q]? with
  | none => s
  | some pg =>
    { pages := s.pages.set q (markFree pg),
      copies := s.copies ++ completeEvents q 0 pg }

/-- Modelled from the spec: `NotifySharedMemoryUpdate(changed_pages)` scans
exactly the indicated pages, in order (§4.2, §4.4). -/
def notify (s : ShmState) (changed_pages : List Nat) : ShmState :=
  changed_pages.foldl scanPage s

/-- The chunk at page `p`, chunk index `c` of the arena. -/
def chunkAt (s : ShmState) (p c : Nat) : Option Chunk :=
  match s.pages[p]? with
  | none => none
  | some pg => pg[c]?

/-- All copies logged so far that originate from page `p`, chunk index `c`. -/
def copiesFor (s : ShmState) (p c : Nat) : List CopyEvent :=
  s.copies.filter (fun e => e.page == p && e.chunk == c)

theorem notify_cons (s : ShmState) (q : Nat) (rest : List Nat) :
    notify s (q :: rest) = notify (scanPage s q) rest := rfl

theorem completeEvents_page (q : Nat) (pg : List Chunk) :
    ∀ (base : Nat) (e : CopyEvent), e ∈ completeEvents q base pg →
      e.page = q := by
  induction pg with
  | nil => intro base e he; cases he
  | cons ch rest ih =>
    intro base e he
    unfold completeEvents at he
    rw [List.mem_append] at he
    cases he with
    | inl h =>
      by_cases hcs : ch.state = .Complete
      · rw [if_pos hcs, List.mem_singleton] at h
        rw [h]
      · rw [if_neg hcs] at h
        cases h
    | inr h => exact ih (base + 1) e h

theorem completeEvents_chunk_ge (q : Nat) (pg : List Chunk) :
    ∀ (base : Nat) (e : CopyEvent), e ∈ completeEvents q base pg →
      base ≤ e.chunk := by
  induction pg with
  | nil => intro base e he; cases he
  | cons ch rest ih =>
    intro base e he
    unfold completeEvents at he
    rw [List.mem_append] at he
    cases he with
    | inl h =>
      by_cases hcs : ch.state = .Complete
      · rw [if_pos hcs, List.mem_singleton] at h
        rw [h]
      · rw [if_neg hcs] at h
        cases h
    | inr h =>
      have := ih (base + 1) e h
      omega

theorem completeEvents_filter (q : Nat) (pg : List Chunk) :
    ∀ (base c : Nat),
      (completeEvents q base pg).filter
          (fun e => e.page == q && e.chunk == (base + c)) =
        (match pg[c]? with
         | some ch =>
           if ch.state = .Complete
           then [{ page := q, chunk := base + c, target := ch.target_buffer,
                   payload := ch.payload }]
           else []
         | none => []) := by
  induction pg with
  | nil => intro base c; rfl
  | cons ch rest ih =>
    intro base c
    unfold completeEvents
    rw [List.filter_append]
    cases c with
    | zero =>
      have htail : (completeEvents q (base + 1) rest).filter
          (fun e => e.page == q && e.chunk == (base + 0)) = [] := by
        rw [List.filter_eq_nil_iff]
        intro e he
        have hge := completeEvents_chunk_ge q rest (base + 1) e he
        simp only [Bool.and_eq_true, beq_iff_eq, not_and]
        intro _ hchunk
        omega
      rw [htail, List.append_nil, List.getElem?_cons_zero]
      show (if ch.state = .Complete
            then [{ page := q, chunk := base, target := ch.target_buffer,
                    payload := ch.payload }]
            else ([] : List CopyEvent)).filter
          (fun e => e.page == q && e.chunk == (base + 0)) =
        (if ch.state = .Complete
         then [{ page := q, chunk := base + 0, target := ch.target_buffer,
                 payload := ch.payload }]
         else [])
      by_cases hcs : ch.state = .Complete
      · rw [if_pos hcs, if_pos hcs]
        simp
      · rw [if_neg hcs, if_neg hcs]
        rfl
    | succ c2 =>
      have hhead : (if ch.state = .Complete
            then [{ page := q, chunk := base, target := ch.target_buffer,
                    payload := ch.payload }]
            else ([] : List CopyEvent)).filter
          (fun e => e.page == q && e.chunk == (base + (c2 + 1))) = [] := by
        rw [List.filter_eq_nil_iff]
        intro e he
        by_cases hcs : ch.state = .Complete
        · rw [if_pos hcs, List.mem_singleton] at he
          rw [he]
          simp only [Bool.and_eq_true, beq_iff_eq, not_and]
          intro _ hchunk
          omega
        · rw [if_neg hcs] at he
          cases he
      rw [hhead, List.nil_append]
      have harith : base + (c2 + 1) = (base + 1) + c2 := by omega
      rw [harith, List.getElem?_cons_succ]
      exact ih (base + 1) c2

theorem chunkAt_scanPage (s : ShmState) (q p c : Nat) (ch : Chunk)
    (h : chunkAt s p c = some ch) :
    chunkAt (scanPage s q) p c =
      some (if q = p ∧ ch.state = .Complete
            then { ch with state := .Free } else ch) := by
  unfold scanPage
  cases hq : s.pages[q]? with
  | none =>
    by_cases hqp : q = p
    · subst hqp
      unfold chunkAt at h
      rw [hq] at h
      exact Option.noConfusion h
    · rw [if_neg (fun hand => hqp hand.1)]
      exact h
  | some pg =>
    by_cases hqp : q = p
    · subst hqp
      unfold chunkAt at h ⊢
      rw [hq] at h
      have hlen : q < s.pages.length := by
        rcases List.getElem?_eq_some_iff.mp hq with ⟨hl, _⟩
        exact hl
      have h2 : pg[c]? = some ch := h
      rw [List.getElem?_set_self hlen]
      show (markFree pg)[c]? = _
      unfold markFree
      rw [List.getElem?_map, h2]
      show some (if ch.state = .Complete
                 then { ch with state := .Free } else ch) = _
      by_cases hcs : ch.state = .Complete
      · rw [if_pos hcs, if_pos ⟨rfl, hcs⟩]
      · rw [if_neg hcs, if_neg (fun hand => hcs hand.2)]
    · unfold chunkAt at h ⊢
      rw [List.getElem?_set_ne hqp, if_neg (fun hand => hqp hand.1)]
      exact h

theorem copiesFor_scanPage (s : ShmState) (q p c : Nat) (ch : Chunk)
    (h : chunkAt s p c = some ch) :
    copiesFor (scanPage s q) p c =
      copiesFor s p c ++
        (if q = p ∧ ch.state = .Complete
         then [{ page := p, chunk := c, target := ch.target_buffer,
                 payload := ch.payload }]
         else []) := by
  unfold scanPage
  cases hq : s.pages[q]? with
  | none =>
    by_cases hqp : q = p
    · subst hqp
      unfold chunkAt at h
      rw [hq] at h
      exact Option.noConfusion h
    · rw [if_neg (fun hand => hqp hand.1), List.append_nil]
  | some pg =>
    unfold copiesFor
    show (s.copies ++ completeEvents q 0 pg).filter
        (fun e => e.page == p && e.chunk == c) = _
    rw [List.filter_append]
    by_cases hqp : q = p
    · subst hqp
      have hcf := completeEvents_filter q pg 0 c
      rw [Nat.zero_add] at hcf
      rw [hcf]
      unfold chunkAt at h
      rw [hq] at h
      have h2 : pg[c]? = some ch := h
      rw [h2]
      show List.filter (fun e => e.page == q && e.chunk == c) s.copies ++
          (if ch.state = .Complete
           then [{ page := q, chunk := c, target := ch.target_buffer,
                   payload := ch.payload }]
           else []) = _
      by_cases hcs : ch.state = .Complete
      · rw [if_pos hcs, if_pos ⟨rfl, hcs⟩]
      · rw [if_neg hcs, if_neg (fun hand => hcs hand.2)]
    · have hnil : (completeEvents q 0 pg).filter
          (fun e => e.page == p && e.chunk == c) = [] := by
        rw [List.filter_eq_nil_iff]
        intro e he
        have hpq := completeEvents_page q pg 0 e he
        simp only [Bool.and_eq_true, beq_iff_eq, not_and]
        intro hp _
        omega
      rw [hnil, if_neg (fun hand => hqp hand.1), List.append_nil]

theorem notify_chunk (pages : List Nat) :
    ∀ (s : ShmState) (p c : Nat) (ch : Chunk), chunkAt s p c = some ch →
      (ch.state ≠ .Complete →
        chunkAt (notify s pages) p c = some ch ∧
        copiesFor (notify s pages) p c = copiesFor s p c) ∧
      (ch.state = .Complete → p ∈ pages →
        chunkAt (notify s pages) p c = some { ch with state := .Free } ∧
        copiesFor (notify s pages) p c =
          copiesFor s p c ++
            [{ page := p, chunk := c, target := ch.target_buffer,
               payload := ch.payload }]) ∧
      (ch.state = .Complete → p ∉ pages →
        chunkAt (notify s pages) p c = some ch ∧
        copiesFor (notify s pages) p c = copiesFor s p c) := by
  induction pages with
  | nil =>
    intro s p c ch h
    exact ⟨fun _ => ⟨h, rfl⟩,
      fun _ hmem => absurd hmem (List.not_mem_nil p),
      fun _ _ => ⟨h, rfl⟩⟩
  | cons q rest ih =>
    intro s p c ch h
    have hca := chunkAt_scanPage s q p c ch h
    have hcf := copiesFor_scanPage s q p c ch h
    rw [notify_cons]
    by_cases hqp : q = p ∧ ch.state = .Complete
    · rw [if_pos hqp] at hca hcf
      obtain ⟨hq, hcomp⟩ := hqp
      have hne : ({ ch with state := ChunkState.Free }).state ≠
          ChunkState.Complete := by
        intro hcontr
        exact ChunkState.noConfusion hcontr
      obtain ⟨hcase, _, _⟩ := ih (scanPage s q) p c
        { ch with state := .Free } hca
      obtain ⟨hca2, hcf2⟩ := hcase hne
      refine ⟨fun hnc => absurd hcomp hnc, fun _ _ => ⟨hca2, ?_⟩,
        fun _ hnm => absurd (hq ▸ List.mem_cons_self q rest) hnm⟩
      rw [hcf2, hcf]
    · rw [if_neg hqp] at hca hcf
      rw [List.append_nil] at hcf
      obtain ⟨h1, h2, h3⟩ := ih (scanPage s q) p c ch hca
      refine ⟨?_, ?_, ?_⟩
      · intro hnc
        obtain ⟨a, b⟩ := h1 hnc
        exact ⟨a, by rw [b, hcf]⟩
      · intro hcomp hmem
        have hq : q ≠ p := fun hq => hqp ⟨hq, hcomp⟩
        have hmem2 : p ∈ rest := by
          rcases List.mem_cons.mp hmem with hpq | hm
          · exact absurd hpq.symm hq
          · exact hm
        obtain ⟨a, b⟩ := h2 hcomp hmem2
        exact ⟨a, by rw [b, hcf]⟩
      · intro hcomp hnm
        have hmem2 : p ∉ rest := fun hm => hnm (List.mem_cons_of_mem q hm)
        obtain ⟨a, b⟩ := h3 hcomp hmem2
        exact ⟨a, by rw [b, hcf]⟩

/-- C1: during a `NotifySharedMemoryUpdate` scan, a chunk whose state tag is
BeingWritten at scan time is never copied into a central buffer and keeps its
state; a chunk observed Complete on a notification covering its page has its
payload copied to its target central buffer exactly once and is flipped to
Free; and a chunk already Free (as it is after having been collected) is
never copied again by later notifications. -/
theorem notify_partial_chunk_safety (s : ShmState) (changed : List Nat)
    (p c : Nat) (ch : Chunk) (h : chunkAt s p c = some ch) :
    (ch.state = .BeingWritten →
      chunkAt (notify s changed) p c = some ch ∧
      copiesFor (notify s changed) p c = copiesFor s p c) ∧
    (ch.state = .Complete → p ∈ changed →
      chunkAt (notify s changed) p c = some { ch with state := .Free } ∧
      copiesFor (notify s changed) p c =
        copiesFor s p c ++
          [{ page := p, chunk := c, target := ch.target_buffer,
             payload := ch.payload }]) ∧
    (ch.state = .Free →
      chunkAt (notify s changed) p c = some ch ∧
      copiesFor (notify s changed) p c = copiesFor s p c) := by
  obtain ⟨h1, h2, h3⟩ := notify_chunk changed s p c ch h
  refine ⟨?_, h2, ?_⟩
  · intro hw
    refine h1 ?_
    rw [hw]
    intro hcontr
    exact ChunkState.noConfusion hcontr
  · intro hf
    refine h1 ?_
    rw [hf]
    intro hcontr
    exact ChunkState.noConfusion hcontr

/-- Example chunk in Complete state targeting central buffer 7. -/
def chunk0 : Chunk :=
  { state := .Complete, target_buffer := 7, seq_number := 1, payload := 42 }

/-- One-page arena holding `chunk0`, with an empty copy log. -/
def shm0 : ShmState := { pages := [[chunk0]], copies := [] }

theorem notify_partial_chunk_safety_witness :
    (chunkAt shm0 0 0 = some chunk0 ∧ chunk0.state = .Complete ∧
      0 ∈ [0]) ∧
    (chunkAt (notify shm0 [0]) 0 0 = some { chunk0 with state := .Free } ∧
      copiesFor (notify shm0 [0]) 0 0 =
        copiesFor shm0 0 0 ++
          [{ page := 0, chunk := 0, target := chunk0.target_buffer,
             payload := chunk0.payload }]) ∧
    (chunkAt (notify (notify shm0 [0]) [0]) 0 0 =
        some { chunk0 with state := .Free } ∧
      copiesFor (notify (notify shm0 [0]) [0]) 0 0 =
        copiesFor (notify shm0 [0]) 0 0) :=
  ⟨⟨rfl, rfl, by decide⟩,
   (notify_partial_chunk_safety shm0 [0] 0 0 chunk0 rfl).2.1 rfl (by decide),
   (notify_partial_chunk_safety (notify shm0 [0]) [0] 0 0
     { chunk0 with state := .Free } rfl).2.2 rfl⟩

/-- Session lifecycle states, per the spec's state machine (§4.6):
`Configured → Started → Stopping → Freed`. -/
inductive SessionState
  | Configured
  | Started
  | Stopping
  | Freed
deriving DecidableEq

/-- `ServiceImpl::RegisteredDataSource`: (producer, data-source id,
descriptor) triple; the descriptor is abstracted to its matching name. -/
structure RegisteredDataSource where
  producer_id : Nat
  data_source_id : Nat
  name : String
deriving DecidableEq

/-- `ServiceImpl::TracingSession`: the producer-keyed multimap of data-source
instances, the BufferID-keyed central buffers, and the config (abstracted to
its requested data-source names). The `state` field realises the spec's
session state machine (§4.6), whose transitions live in the missing
`service_impl.cc`. -/
structure TracingSession where
  data_source_instances : List (Nat × Nat)
  trace_buffers : List (Nat × TraceBuffer)
  config : List String
  state : SessionState
deriving DecidableEq

/-- Service-wide state of `ServiceImpl`: connected producers, the name-keyed
registry `data_sources_` (a flat multimap), and `tracing_sessions_` keyed by
consumer (consumers are abstracted to integer identities). -/
structure ServiceState where
  producers : List Nat
  data_sources : List RegisteredDataSource
  sessions : List (Nat × TracingSession)
  last_producer_id : Nat
  last_instance_id : Nat
deriving DecidableEq

inductive SvcError
  | UnknownConsumerError
  | InvalidSessionStateError
deriving DecidableEq

/-- The service right after construction: no connections, no sessions. -/
def initState : ServiceState :=
  { producers := [], data_sources := [], sessions := [],
    last_producer_id := 0, last_instance_id := 0 }

/-- The session owned by consumer `c`, if any (`tracing_sessions_` lookup). -/
def sessionOf (s : ServiceState) (c : Nat) : Option TracingSession :=
  (s.sessions.find? (fun e => e.1 == c)).map (fun e => e.2)

/-- Replaces consumer `c`'s session in place. -/
def updateSession (s : ServiceState) (c : Nat) (sess : TracingSession) :
    ServiceState :=
  { s with sessions :=
      s.sessions.map (fun e => if e.1 == c then (e.1, sess) else e) }

/-- Modelled from the spec: `ConnectProducer` assigns the next ProducerID
monotonically (§3); the endpoint itself is abstracted away. -/
def connectProducer (s : ServiceState) : ServiceState :=
  { s with producers := (s.last_producer_id + 1) :: s.producers,
           last_producer_id := s.last_producer_id + 1 }

/-- Modelled from the spec: `RegisterDataSource` adds one entry to the
name-keyed registry; duplicate names across producers are legal (§4.4), and
registration does not touch any existing session (§4.6). -/
def registerDataSource (s : ServiceState) (p d : Nat) (nm : String) :
    ServiceState :=
  { s with data_sources := s.data_sources ++
      [{ producer_id := p, data_source_id := d, name := nm }] }

/-- Assigns fresh DataSourceInstanceIDs (continuing from `base`, mirroring
`last_data_source_instance_id_`) to each matched registration. -/
def assignIds : Nat → List RegisteredDataSource → List (Nat × Nat)
  | _, [] => []
  | base, r :: rest => (r.producer_id, base + 1) :: assignIds (base + 1) rest

/-- Registrations matched by an EnableTracing config: for each requested
name, every registry entry with that name whose producer is connected
(§4.6). -/
def matchedSources (s : ServiceState) (cfg : List String) :
    List RegisteredDataSource :=
  cfg.flatMap (fun nm => s.data_sources.filter
    (fun r => decide (r.name = nm ∧ r.producer_id ∈ s.producers)))

/-- Modelled from the spec: `EnableTracing` creates a session owned by the
calling consumer, matching the config against the registry as of the call
(§4.5, §4.6). A consumer that already owns a session has the call rejected
(the open policy choice of §9, resolved here as reject). -/
def enableTracing (s : ServiceState) (c : Nat) (cfg : List String) :
    ServiceState :=
  if sessionOf s c = none then
    { s with
      sessions := (c,
        { data_source_instances :=
            assignIds s.last_instance_id (matchedSources s cfg),
          trace_buffers := [],
          config := cfg,
          state := .Started }) :: s.sessions,
      last_instance_id := s.last_instance_id + (matchedSources s cfg).length }
  else s

/-- Modelled from the spec: `ReadBuffers` drains every central buffer of the
consumer's session via ReadAll without mutating state (§4.5); a session in
the terminal Freed state rejects the call with `InvalidSessionStateError`
(§4.6). Returns the session's instances and per-buffer contents. -/
def readBuffersAux (s : ServiceState) :
    Option TracingSession →
      Except SvcError (List (Nat × Nat) × List (Nat × List Nat)) ×
        ServiceState
  | none => (.error .UnknownConsumerError, s)
  | some sess =>
    if sess.state = .Freed then (.error .InvalidSessionStateError, s)
    else (.ok (sess.data_source_instances,
      sess.trace_buffers.map (fun e => (e.1, e.2.readAll))), s)

def readBuffers (s : ServiceState) (c : Nat) :
    Except SvcError (List (Nat × Nat) × List (Nat × List Nat)) ×
      ServiceState :=
  readBuffersAux s (sessionOf s c)

/-- Modelled from the spec: `DisableTracing` moves a live session to
Stopping (§4.6); a session already Freed rejects the call with
`InvalidSessionStateError` and nothing is mutated. -/
def disableTracingAux (s : ServiceState) (c : Nat) :
    Option TracingSession → Except SvcError Unit × ServiceState
  | none => (.error .UnknownConsumerError, s)
  | some sess =>
    if sess.state = .Freed then (.error .InvalidSessionStateError, s)
    else (.ok (), updateSession s c { sess with state := .Stopping })

def disableTracing (s : ServiceState) (c : Nat) :
    Except SvcError Unit × ServiceState :=
  disableTracingAux s c (sessionOf s c)

/-- Modelled from the spec: `FreeBuffers` releases the session's central
buffers and moves it to the terminal Freed state (§4.5, §4.6). -/
def freeBuffersAux (s : ServiceState) (c : Nat) :
    Option TracingSession → Except SvcError Unit × ServiceState
  | none => (.error .UnknownConsumerError, s)
  | some sess =>
    if sess.state = .Freed then (.error .InvalidSessionStateError, s)
    else (.ok (), updateSession s c
      { sess with state := .Freed, trace_buffers := [] })

def freeBuffers (s : ServiceState) (c : Nat) :
    Except SvcError Unit × ServiceState :=
  freeBuffersAux s c (sessionOf s c)

/-- Modelled from the spec: consumer disconnection tears down any session it
owns (§4.5, §3). -/
def disconnectConsumer (s : ServiceState) (c : Nat) : ServiceState :=
  { s with sessions := s.sessions.filter (fun e => !(e.1 == c)) }

/-- Removes every data-source instance of producer `p` from a session. -/
def pruneInstances (p : Nat) (sess : TracingSession) : TracingSession :=
  { sess with data_source_instances :=
      sess.data_source_instances.filter (fun i => !(i.1 == p)) }

/-- Modelled from the spec: `DisconnectProducer` removes the producer's
registry entries service-wide and prunes its DataSourceInstanceIDs from every
session's instance map (§4.4, §3). -/
def disconnectProducer (s : ServiceState) (p : Nat) : ServiceState :=
  { s with
    producers := s.producers.filter (fun q => !(q == p)),
    data_sources := s.data_sources.filter (fun r => !(r.producer_id == p)),
    sessions := s.sessions.map (fun e => (e.1, pruneInstances p e.2)) }

/-- Service states reachable from the freshly constructed service through
the modelled operations. -/
inductive Reachable : ServiceState → Prop
  | init : Reachable initState
  | connect_producer {s} : Reachable s → Reachable (connectProducer s)
  | register {s} (p d : Nat) (nm : String) :
      Reachable s → Reachable (registerDataSource s p d nm)
  | disconnect_producer {s} (p : Nat) :
      Reachable s → Reachable (disconnectProducer s p)
  | enable {s} (c : Nat) (cfg : List String) :
      Reachable s → Reachable (enableTracing s c cfg)
  | disable {s} (c : Nat) : Reachable s → Reachable (disableTracing s c).2
  | read {s} (c : Nat) : Reachable s → Reachable (readBuffers s c).2
  | free_buffers {s} (c : Nat) : Reachable s → Reachable (freeBuffers s c).2
  | disconnect_consumer {s} (c : Nat) :
      Reachable s → Reachable (disconnectConsumer s c)

theorem assignIds_mem (rs : List RegisteredDataSource) :
    ∀ (base : Nat) (e : Nat × Nat), e ∈ assignIds base rs →
      ∃ r ∈ rs, e.1 = r.producer_id := by
  induction rs with
  | nil => intro base e he; cases he
  | cons r rest ih =>
    intro base e he
    unfold assignIds at he
    rcases List.mem_cons.mp he with hhd | htl
    · exact ⟨r, List.mem_cons_self r rest, by rw [hhd]⟩
    · obtain ⟨r2, hr2, heq⟩ := ih (base + 1) e htl
      exact ⟨r2, List.mem_cons_of_mem r hr2, heq⟩

theorem matchedSources_mem (s : ServiceState) (cfg : List String)
    (r : RegisteredDataSource) (h : r ∈ matchedSources s cfg) :
    r ∈ s.data_sources ∧ r.name ∈ cfg ∧ r.producer_id ∈ s.producers := by
  unfold matchedSources at h
  rw [List.mem_flatMap] at h
  obtain ⟨nm, hnm, hr⟩ := h
  rw [List.mem_filter] at hr
  obtain ⟨hmem, hp⟩ := hr
  obtain ⟨hname, hprod⟩ := of_decide_eq_true hp
  exact ⟨hmem, by rw [hname]; exact hnm, hprod⟩

/-- C4: `EnableTracing` creates data-source instances only from registry
entries (of connected producers) present at the moment of the call; a
producer registering a matching source afterwards adds zero instances to the
already-enabled session (in fact to any session). -/
theorem enable_matches_at_call_time (s : ServiceState) (c : Nat)
    (cfg : List String) (p d : Nat) (nm : String)
    (hno : sessionOf s c = none) :
    (registerDataSource (enableTracing s c cfg) p d nm).sessions =
      (enableTracing s c cfg).sessions ∧
    (∀ sess, sessionOf (enableTracing s c cfg) c = some sess →
      ∀ e ∈ sess.data_source_instances,
        ∃ r ∈ s.data_sources, r.producer_id = e.1 ∧ r.name ∈ cfg ∧
          r.producer_id ∈ s.producers) := by
  constructor
  · rfl
  · intro sess hsess e he
    unfold enableTracing at hsess
    rw [if_pos hno] at hsess
    unfold sessionOf at hsess
    rw [List.find?_cons_of_pos _ (by exact beq_self_eq_true c)] at hsess
    have hsess2 : sess =
        { data_source_instances :=
            assignIds s.last_instance_id (matchedSources s cfg),
          trace_buffers := [],
          config := cfg,
          state := .Started } := (Option.some.inj hsess).symm
    rw [hsess2] at he
    obtain ⟨r, hr, heq⟩ := assignIds_mem (matchedSources s cfg)
      s.last_instance_id e he
    obtain ⟨hmem, hname, hprod⟩ := matchedSources_mem s cfg r hr
    exact ⟨r, hmem, heq.symm, hname, hprod⟩

/-- Service state with one connected producer (id 1) that has registered the
data source name X, and no sessions. -/
def svcReg : ServiceState :=
  { producers := [1],
    data_sources := [{ producer_id := 1, data_source_id := 1, name := "X" }],
    sessions := [], last_producer_id := 1, last_instance_id := 0 }

theorem enable_matches_at_call_time_witness :
    sessionOf svcReg 5 = none ∧
    ((registerDataSource (enableTracing svcReg 5 ["X"]) 2 1 "X").sessions =
        (enableTracing svcReg 5 ["X"]).sessions ∧
      (∀ sess, sessionOf (enableTracing svcReg 5 ["X"]) 5 = some sess →
        ∀ e ∈ sess.data_source_instances,
          ∃ r ∈ svcReg.data_sources, r.producer_id = e.1 ∧
            r.name ∈ ["X"] ∧ r.producer_id ∈ svcReg.producers)) :=
  ⟨rfl, enable_matches_at_call_time svcReg 5 ["X"] 2 1 "X" rfl⟩

theorem find?_map_prune (l : List (Nat × TracingSession)) (c : Nat)
    (f : TracingSession → TracingSession) :
    (l.map (fun e => (e.1, f e.2))).find? (fun e => e.1 == c) =
      (l.find? (fun e => e.1 == c)).map (fun e => (e.1, f e.2)) := by
  induction l with
  | nil => rfl
  | cons a t ih =>
    rw [List.map_cons]
    cases hc : a.1 == c with
    | true => simp [List.find?, hc]
    | false => simp [List.find?, hc, ih]

theorem sessionOf_disconnectProducer (s : ServiceState) (p c : Nat) :
    sessionOf (disconnectProducer s p) c =
      (sessionOf s c).map (pruneInstances p) := by
  show ((s.sessions.map (fun e => (e.1, pruneInstances p e.2))).find?
      (fun e => e.1 == c)).map (fun e => e.2) =
    ((s.sessions.find? (fun e => e.1 == c)).map
      (fun e => e.2)).map (pruneInstances p)
  rw [find?_map_prune]
  cases s.sessions.find? (fun e => e.1 == c) with
  | none => rfl
  | some a => rfl

theorem readBuffers_ok (s : ServiceState) (c : Nat) (sess : TracingSession)
    (h : sessionOf s c = some sess) (hst : sess.state ≠ .Freed) :
    readBuffers s c = (.ok (sess.data_source_instances,
      sess.trace_buffers.map (fun e => (e.1, e.2.readAll))), s) := by
  unfold readBuffers
  rw [h]
  simp only [readBuffersAux]
  rw [if_neg hst]

/-- C5: after `DisconnectProducer(p)`, no registry entry of producer `p`
remains, no session holds an instance keyed by `p`, the invariant that every
instance maps to a connected producer is preserved, and `ReadBuffers` on any
session that was live still succeeds, reporting only remaining producers'
instances, without touching service state. -/
theorem disconnect_producer_prunes (s : ServiceState) (p : Nat) :
    (∀ r ∈ (disconnectProducer s p).data_sources, r.producer_id ≠ p) ∧
    (∀ e ∈ (disconnectProducer s p).sessions,
      ∀ i ∈ e.2.data_source_instances, i.1 ≠ p) ∧
    ((∀ e ∈ s.sessions, ∀ i ∈ e.2.data_source_instances,
        i.1 ∈ s.producers) →
      ∀ e ∈ (disconnectProducer s p).sessions,
        ∀ i ∈ e.2.data_source_instances,
          i.1 ∈ (disconnectProducer s p).producers) ∧
    (∀ c sess, sessionOf s c = some sess → sess.state ≠ .Freed →
      ∃ res, readBuffers (disconnectProducer s p) c =
          (.ok res, disconnectProducer s p) ∧
        ∀ i ∈ res.1, i.1 ≠ p) := by
  refine ⟨?_, ?_, ?_, ?_⟩
  · intro r hr
    have hr2 : r ∈ s.data_sources.filter
        (fun r => !(r.producer_id == p)) := hr
    obtain ⟨_, hb⟩ := List.mem_filter.mp hr2
    intro hcontr
    rw [hcontr] at hb
    simp at hb
  · intro e he i hi
    have he2 : e ∈ s.sessions.map
        (fun e => (e.1, pruneInstances p e.2)) := he
    obtain ⟨a, _, hae⟩ := List.mem_map.mp he2
    rw [← hae] at hi
    have hi2 : i ∈ a.2.data_source_instances.filter
        (fun i => !(i.1 == p)) := hi
    obtain ⟨_, hb⟩ := List.mem_filter.mp hi2
    intro hcontr
    rw [hcontr] at hb
    simp at hb
  · intro hinv e he i hi
    have he2 : e ∈ s.sessions.map
        (fun e => (e.1, pruneInstances p e.2)) := he
    obtain ⟨a, ha, hae⟩ := List.mem_map.mp he2
    rw [← hae] at hi
    have hi2 : i ∈ a.2.data_source_instances.filter
        (fun i => !(i.1 == p)) := hi
    obtain ⟨hmem, hb⟩ := List.mem_filter.mp hi2
    have hin := hinv a ha i hmem
    show i.1 ∈ s.producers.filter (fun q => !(q == p))
    rw [List.mem_filter]
    exact ⟨hin, hb⟩
  · intro c sess hsess hstate
    have hso := sessionOf_disconnectProducer s p c
    rw [hsess] at hso
    have hok := readBuffers_ok (disconnectProducer s p) c
      (pruneInstances p sess) hso hstate
    refine ⟨((pruneInstances p sess).data_source_instances,
      (pruneInstances p sess).trace_buffers.map
        (fun e => (e.1, e.2.readAll))), hok, ?_⟩
    intro i hi
    have hi2 : i ∈ sess.data_source_instances.filter
        (fun i => !(i.1 == p)) := hi
    obtain ⟨_, hb⟩ := List.mem_filter.mp hi2
    intro hcontr
    rw [hcontr] at hb
    simp at hb

/-- C6: `ReadBuffers` and `DisableTracing` on a session already in the
terminal Freed state both return `InvalidSessionStateError` and leave the
whole service state — in particular every buffer — unmodified. -/
theorem freed_session_rejects (s : ServiceState) (c : Nat)
    (sess : TracingSession) (h : sessionOf s c = some sess)
    (hf : sess.state = .Freed) :
    readBuffers s c = (.error .InvalidSessionStateError, s) ∧
    disableTracing s c = (.error .InvalidSessionStateError, s) := by
  constructor
  · unfold readBuffers
    rw [h]
    simp only [readBuffersAux]
    rw [if_pos hf]
  · unfold disableTracing
    rw [h]
    simp only [disableTracingAux]
    rw [if_pos hf]

/-- Session record in the terminal Freed state. -/
def sessFreed : TracingSession :=
  { data_source_instances := [], trace_buffers := [], config := [],
    state := .Freed }

/-- Service state whose consumer 5 enabled tracing and then freed its
buffers, leaving its session in the Freed state. -/
def svcFreed : ServiceState := (freeBuffers (enableTracing initState 5 []) 5).2

theorem freed_session_rejects_witness :
    sessionOf svcFreed 5 = some sessFreed ∧ sessFreed.state = .Freed ∧
    (readBuffers svcFreed 5 = (.error .InvalidSessionStateError, svcFreed) ∧
      disableTracing svcFreed 5 =
        (.error .InvalidSessionStateError, svcFreed)) :=
  ⟨rfl, rfl, freed_session_rejects svcFreed 5 sessFreed rfl rfl⟩

/-- C5 witness state: two producers each contributing one instance to
consumer 9's live session. -/
def sessLive : TracingSession :=
  { data_source_instances := [(1, 1), (2, 2)], trace_buffers := [],
    config := ["X"], state := .Started }

def svcTwo : ServiceState :=
  { producers := [1, 2],
    data_sources := [{ producer_id := 1, data_source_id := 1, name := "X" },
      { producer_id := 2, data_source_id := 1, name := "X" }],
    sessions := [(9, sessLive)], last_producer_id := 2, last_instance_id := 2 }

theorem disconnect_producer_prunes_witness :
    sessionOf svcTwo 9 = some sessLive ∧ sessLive.state ≠ .Freed ∧
    ((∀ r ∈ (disconnectProducer svcTwo 1).data_sources,
        r.producer_id ≠ 1) ∧
      (∀ e ∈ (disconnectProducer svcTwo 1).sessions,
        ∀ i ∈ e.2.data_source_instances, i.1 ≠ 1) ∧
      ((∀ e ∈ svcTwo.sessions, ∀ i ∈ e.2.data_source_instances,
          i.1 ∈ svcTwo.producers) →
        ∀ e ∈ (disconnectProducer svcTwo 1).sessions,
          ∀ i ∈ e.2.data_source_instances,
            i.1 ∈ (disconnectProducer svcTwo 1).producers) ∧
      (∀ c sess, sessionOf svcTwo c = some sess → sess.state ≠ .Freed →
        ∃ res, readBuffers (disconnectProducer svcTwo 1) c =
            (.ok res, disconnectProducer svcTwo 1) ∧
          ∀ i ∈ res.1, i.1 ≠ 1)) :=
  ⟨rfl, by decide, disconnect_producer_prunes svcTwo 1⟩

/-- The consumers currently owning a session (the key set of
`tracing_sessions_`). -/
def consumerKeys (s : ServiceState) : List Nat := s.sessions.map Prod.fst

theorem keys_updateSession (s : ServiceState) (c : Nat)
    (ns : TracingSession) :
    consumerKeys (updateSession s c ns) = consumerKeys s := by
  show (s.sessions.map
      (fun e => if e.1 == c then (e.1, ns) else e)).map Prod.fst =
    s.sessions.map Prod.fst
  rw [List.map_map]
  apply List.map_congr_left
  intro e _
  by_cases hc : (e.1 == c) = true
  · simp [Function.comp, hc]
  · simp [Function.comp, hc]

theorem keys_disconnectProducer (s : ServiceState) (p : Nat) :
    consumerKeys (disconnectProducer s p) = consumerKeys s := by
  show (s.sessions.map (fun e => (e.1, pruneInstances p e.2))).map Prod.fst =
    s.sessions.map Prod.fst
  rw [List.map_map]
  apply List.map_congr_left
  intro e _
  rfl

theorem readBuffers_snd (s : ServiceState) (c : Nat) :
    (readBuffers s c).2 = s := by
  unfold readBuffers
  cases h : sessionOf s c with
  | none => rfl
  | some sess =>
    simp only [readBuffersAux]
    by_cases hf : sess.state = .Freed
    · rw [if_pos hf]
    · rw [if_neg hf]

theorem keys_disableTracing (s : ServiceState) (c : Nat) :
    consumerKeys (disableTracing s c).2 = consumerKeys s := by
  unfold disableTracing
  cases h : sessionOf s c with
  | none => rfl
  | some sess =>
    simp only [disableTracingAux]
    by_cases hf : sess.state = .Freed
    · rw [if_pos hf]
    · rw [if_neg hf]
      exact keys_updateSession s c { sess with state := .Stopping }

theorem keys_freeBuffers (s : ServiceState) (c : Nat) :
    consumerKeys (freeBuffers s c).2 = consumerKeys s := by
  unfold freeBuffers
  cases h : sessionOf s c with
  | none => rfl
  | some sess =>
    simp only [freeBuffersAux]
    by_cases hf : sess.state = .Freed
    · rw [if_pos hf]
    · rw [if_neg hf]
      exact keys_updateSession s c
        { sess with state := .Freed, trace_buffers := [] }

theorem keys_nodup_enable (s : ServiceState) (c : Nat) (cfg : List String)
    (h : (consumerKeys s).Nodup) :
    (consumerKeys (enableTracing s c cfg)).Nodup := by
  unfold enableTracing
  by_cases hn : sessionOf s c = none
  · rw [if_pos hn]
    show (c :: consumerKeys s).Nodup
    rw [List.nodup_cons]
    refine ⟨?_, h⟩
    intro hc
    unfold sessionOf at hn
    rw [Option.map_eq_none', List.find?_eq_none] at hn
    obtain ⟨e, he, hec⟩ := List.mem_map.mp hc
    exact hn e he (by rw [hec]; exact beq_self_eq_true c)
  · rw [if_neg hn]
    exact h

theorem keys_nodup_disconnectConsumer (s : ServiceState) (c : Nat)
    (h : (consumerKeys s).Nodup) :
    (consumerKeys (disconnectConsumer s c)).Nodup := by
  show ((s.sessions.filter (fun e => !(e.1 == c))).map Prod.fst).Nodup
  exact List.Nodup.sublist
    ((List.filter_sublist s.sessions).map Prod.fst) h

/-- In every reachable service state the session keys are duplicate-free:
`tracing_sessions_` is a map keyed by consumer. -/
theorem reachable_keys_nodup (s : ServiceState) (h : Reachable s) :
    (consumerKeys s).Nodup := by
  induction h with
  | init => exact List.nodup_nil
  | connect_producer _ ih => exact ih
  | register p d nm _ ih => exact ih
  | disconnect_producer p _ ih =>
    rw [keys_disconnectProducer]
    exact ih
  | enable c cfg _ ih => exact keys_nodup_enable _ c cfg ih
  | disable c _ ih =>
    rw [keys_disableTracing]
    exact ih
  | read c _ ih =>
    show (consumerKeys (readBuffers _ c).2).Nodup
    rw [readBuffers_snd]
    exact ih
  | free_buffers c _ ih =>
    rw [keys_freeBuffers]
    exact ih
  | disconnect_consumer c _ ih => exact keys_nodup_disconnectConsumer _ c ih

theorem nodup_key_filter :
    ∀ (l : List (Nat × TracingSession)), (l.map Prod.fst).Nodup →
      (∀ c, (l.filter (fun e => e.1 == c)).length ≤ 1) ∧
      (∀ e ∈ l, (l.filter (fun x => x.1 == e.1)).length = 1) := by
  intro l
  induction l with
  | nil =>
    intro _
    exact ⟨fun c => by simp, fun e he => absurd he (List.not_mem_nil e)⟩
  | cons a t ih =>
    intro hnd
    rw [List.map_cons, List.nodup_cons] at hnd
    obtain ⟨hna, hnt⟩ := hnd
    obtain ⟨ih1, ih2⟩ := ih hnt
    have hkey_nil : ∀ c, a.1 = c → t.filter (fun e => e.1 == c) = [] := by
      intro c hac
      rw [List.filter_eq_nil_iff]
      intro x hx hxc
      have hx1 : x.1 = c := eq_of_beq hxc
      exact hna (List.mem_map.mpr ⟨x, hx, by rw [hx1, hac]⟩)
    constructor
    · intro c
      by_cases hac : (a.1 == c) = true
      · rw [@List.filter_cons_of_pos _ (fun e => e.1 == c) a t hac,
          hkey_nil c (eq_of_beq hac)]
        exact Nat.le_refl 1
      · rw [@List.filter_cons_of_neg _ (fun e => e.1 == c) a t hac]
        exact ih1 c
    · intro e he
      rcases List.mem_cons.mp he with heq | het
      · rw [heq]
        rw [@List.filter_cons_of_pos _ (fun x => x.1 == a.1) a t
            (beq_self_eq_true a.1),
          hkey_nil a.1 rfl]
        rfl
      · have hane : ¬ ((a.1 == e.1) = true) := by
          intro hbeq
          exact hna (List.mem_map.mpr ⟨e, het, (eq_of_beq hbeq).symm⟩)
        rw [@List.filter_cons_of_neg _ (fun x => x.1 == e.1) a t hane]
        exact ih2 e het

/-- C7: in every reachable service state, each consumer holds at most one
active session (`tracing_sessions_` is keyed by consumer), and every session
entry belongs to exactly one consumer key. -/
theorem one_session_per_consumer (s : ServiceState) (h : Reachable s) :
    (∀ c, (s.sessions.filter (fun e => e.1 == c)).length ≤ 1) ∧
    (∀ e ∈ s.sessions,
      (s.sessions.filter (fun x => x.1 == e.1)).length = 1) :=
  nodup_key_filter s.sessions (reachable_keys_nodup s h)

/-- Reachable state with one producer connected and one session enabled for
consumer 7. -/
def svcOne : ServiceState := enableTracing (connectProducer initState) 7 []

theorem one_session_per_consumer_witness :
    Reachable svcOne ∧
    ((∀ c, (svcOne.sessions.filter (fun e => e.1 == c)).length ≤ 1) ∧
      (∀ e ∈ svcOne.sessions,
        (svcOne.sessions.filter (fun x => x.1 == e.1)).length = 1)) :=
  ⟨Reachable.enable 7 [] (Reachable.connect_producer Reachable.init),
   one_session_per_consumer svcOne
     (Reachable.enable 7 [] (Reachable.connect_producer Reachable.init))⟩
